import Mathlib

/-!
Verification of the shampoo-Crawl ingestion/analysis pipeline spec against
the repository's code.  The frontend (JavaScript) is embedded shallowly:
pure fragments become Lean functions, the JS `Map` used by
`removeDuplicates` becomes an insertion-ordered association list, and the
api client's HTTP effects become explicit request values.  The backend
pipeline is not present in the source tree; where a claim depends on it,
the relevant operation is modelled from the spec (marked as such).
-/

/-- A source row as the sources page sees it after `fetchSources`'s
transformation: only the fields `removeDuplicates` reads (`id`, `name`,
`url`, `created_at`).  `created_at` is modelled as a timestamp integer
(the code compares `new Date(...)` values). -/
structure Source where
  id : Int
  name : String
  url : String
  created_at : Int
deriving DecidableEq, Repr

/-- The grouping key built by `removeDuplicates`:
`` `${source.name}-${source.url}` ``. -/
def dupKey (s : Source) : String :=
  s.name ++ "-" ++ s.url

/-- The "keep the newer one" test:
`source.id > existing.id || new Date(source.created_at) > new Date(existing.created_at)`. -/
def isNewer (s existing : Source) : Bool :=
  s.id > existing.id || s.created_at > existing.created_at

/-- The JS `Map.get` on the insertion-ordered association list modelling the JS
`Map seen`. -/
def seenLookup (seen : List (String × Source)) (k : String) : Option Source :=
  match seen with
  | [] => none
  | (k', v) :: rest => if k' = k then some v else seenLookup rest k

/-- The JS `Map.set`: replaces the value in place when the key exists (JS `Map`
keeps the original insertion position), otherwise appends. -/
def seenSet (seen : List (String × Source)) (k : String) (v : Source) :
    List (String × Source) :=
  match seen with
  | [] => [(k, v)]
  | (k', v') :: rest =>
    if k' = k then (k', v) :: rest else (k', v') :: seenSet rest k v

/-- One iteration of the `sources.forEach` loop in `removeDuplicates`.
The accumulator carries the `seen` map and the list of sources classified
as duplicates (the code pushes their `id`s; we keep the whole source and
project the `id` at the end, which produces the identical `duplicates`
array). -/
def dedupStep (acc : List (String × Source) × List Source) (s : Source) :
    List (String × Source) × List Source :=
  let key := dupKey s
  match seenLookup acc.1 key with
  | some existing =>
    if isNewer s existing then
      (seenSet acc.1 key s, acc.2 ++ [existing])
    else
      (acc.1, acc.2 ++ [s])
  | none => (seenSet acc.1 key s, acc.2)

/-- The state of `removeDuplicates` after the `forEach` loop. -/
def dedupState (sources : List Source) : List (String × Source) × List Source :=
  sources.foldl dedupStep ([], [])

/-- The function `removeDuplicates` from `src/frontend/app/sources/page.jsx`: returns
`Array.from(seen.values())` together with the `duplicates` id array for
which the loop at the end issues one `apiClient.deleteSource(id)` each. -/
def removeDuplicates (sources : List Source) : List Source × List Int :=
  ((dedupState sources).1.map Prod.snd, (dedupState sources).2.map Source.id)

/-- Well-formedness of the `seen` map: every entry's key is the `dupKey`
of its value and keys are pairwise distinct (a JS `Map` holds each key at
most once). -/
def seenWF (seen : List (String × Source)) : Prop :=
  (∀ p ∈ seen, p.1 = dupKey p.2) ∧ seen.Pairwise fun p q => p.1 ≠ q.1

/-- An HTTP request issued by the api client, reduced to the data the
claims mention. -/
structure ApiRequest where
  method : String
  endpoint : String
deriving DecidableEq, Repr

/-- The call `apiClient.deleteSource(sourceId)`: `DELETE /sources/${sourceId}`. -/
def deleteSourceRequest (sourceId : Int) : ApiRequest :=
  { method := "DELETE", endpoint := "/sources/" ++ toString sourceId }

/-- The DELETE requests `removeDuplicates` fires from inside
`fetchSources`: one `deleteSource` per entry of its `duplicates` array. -/
def fetchSourcesDeletes (sources : List Source) : List ApiRequest :=
  (removeDuplicates sources).2.map deleteSourceRequest

/-- The body of `POST /scraping/trigger` as built by
`apiClient.triggerScraping`: it carries `source_name` and `job_type`
only — no source id field exists in the payload. -/
structure TriggerPayload where
  source_name : Option String
  job_type : String
deriving DecidableEq, Repr

/-- The argument object callers pass to `apiClient.triggerScraping`;
absent JS fields are `none`. -/
structure TriggerArg where
  source_name : Option String
  name : Option String
  source_id : Option Int
deriving DecidableEq, Repr

/-- JS truthiness of an optional string: `undefined` and `""` are falsy. -/
def jsTruthy : Option String → Bool
  | none => false
  | some s => !(s == "")

/-- JS `a || b` on optional strings. -/
def jsOrString (a b : Option String) : Option String :=
  if jsTruthy a then a else b

/-- The `apiClient.triggerScraping` payload construction:
`source_name: sourceData.source_name || sourceData.name, job_type: 'manual'`.
Any `source_id` field of the argument is dropped. -/
def buildTriggerPayload (arg : TriggerArg) : TriggerPayload :=
  { source_name := jsOrString arg.source_name arg.name, job_type := "manual" }

/-- The sources page's `triggerScraping` passes
`{ source_name: source.name, job_type: 'manual' }`. -/
def sourcesPageTriggerPayload (s : Source) : TriggerPayload :=
  buildTriggerPayload { source_name := some s.name, name := none, source_id := none }

/-- The settings page's `triggerScraping` passes `{ source_id: source.id }`
— no `source_name` and no `name` field. -/
def settingsPageTriggerPayload (s : Source) : TriggerPayload :=
  buildTriggerPayload { source_name := none, name := none, source_id := some s.id }

/-- Modelled from the spec: the state of the core's trigger interface
(the backend implementation is absent from the source tree) — the queue
of pending scrape jobs awaiting the worker pools, and a counter of fetch
work actually performed (which only the asynchronous workers advance). -/
structure TriggerCoreState where
  pendingJobs : List TriggerPayload
  fetchesDone : Nat
deriving DecidableEq, Repr

/-- Modelled from the spec: `triggerScrape` on the exposed trigger
interface is non-blocking — it only enqueues the request and returns an
acknowledgement immediately; no fetch work is performed synchronously
(the actual work happens asynchronously and is observed via status
polling). -/
def triggerScrapeCore (st : TriggerCoreState) (p : TriggerPayload) :
    TriggerCoreState × String :=
  ({ st with pendingJobs := st.pendingJobs ++ [p] }, "accepted")

/-- Error values `ApiClient.request` can throw: the underlying `fetch`
rejecting, a non-ok status, or `response.json()` rejecting. -/
inductive RequestError where
  | networkError
  | httpError (status : Nat)
  | jsonParseError
deriving DecidableEq, Repr

/-- An HTTP response as `request` consumes it.  `jsonBody` is the result
of `response.json()`: `none` models a body that fails to parse as JSON. -/
structure HttpResponse (α : Type) where
  ok : Bool
  status : Nat
  jsonBody : Option α
deriving DecidableEq, Repr

/-- The control flow of one `fetch` inside `ApiClient.request`:
a rejected fetch (`none`) throws, a non-ok status throws
`HTTP error! status: ...`, an unparseable body throws the json error,
otherwise the parsed body is returned. -/
def requestOnce {α : Type} (r : Option (HttpResponse α)) : Except RequestError α :=
  match r with
  | none => .error .networkError
  | some resp =>
    if !resp.ok then .error (.httpError resp.status)
    else
      match resp.jsonBody with
      | some v => .ok v
      | none => .error .jsonParseError

/-- The method `ApiClient.request` against a fetch behaviour `f` (the outcome the
n-th `fetch` call would produce): the method performs a single `fetch`
and rethrows any error.  The second component counts the `fetch`
invocations made. -/
def request {α : Type} (f : Nat → Option (HttpResponse α)) :
    Except RequestError α × Nat :=
  (requestOnce (f 0), 1)

/-- The helper `formatFrequency` from the sources page, over integer seconds
(`!seconds` is `seconds = 0` for a natural number; `isNaN` cannot fire). -/
def formatFrequencySources (seconds : Nat) : String :=
  if seconds = 0 then "Auto"
  else if seconds < 60 then toString seconds ++ "s"
  else if seconds < 3600 then toString (seconds / 60) ++ "m"
  else if seconds < 86400 then toString (seconds / 3600) ++ "h"
  else toString (seconds / 86400) ++ "d"

/-- The helper `formatFrequency` from the settings page: identical except that the
`Auto` guard for falsy/NaN input is missing. -/
def formatFrequencySettings (seconds : Nat) : String :=
  if seconds < 60 then toString seconds ++ "s"
  else if seconds < 3600 then toString (seconds / 60) ++ "m"
  else if seconds < 86400 then toString (seconds / 3600) ++ "h"
  else toString (seconds / 86400) ++ "d"

/-- Modelled from the spec: the durable Article record of the Persistence
Store (the backend implementation is absent from the source tree); only
the fields the dedup key and upsert touch are kept. -/
structure Article where
  id : Nat
  source_id : Nat
  canonical_url : String
  content : String
deriving DecidableEq, Repr

/-- Modelled from the spec: the Persistence Store's article table plus its
id allocator. -/
structure Store where
  articles : List Article
  nextId : Nat
deriving DecidableEq, Repr

/-- Whether an article matches the dedup key (source id, canonical URL). -/
def matchKey (sid : Nat) (url : String) (a : Article) : Bool :=
  a.source_id == sid && a.canonical_url == url

/-- Number of articles in a table holding the given dedup key. -/
def countKey (arts : List Article) (sid : Nat) (url : String) : Nat :=
  (arts.filter (matchKey sid url)).length

/-- Modelled from the spec: one atomic
`upsertArticle(sourceId, canonicalUrl, content) → (Article, wasNew)` —
the create-vs-update decision is validated at write time against the
canonical-URL key (compare-and-swap), inserting a fresh row only when no
row holds the key.  Returns the new store, the article, and `wasNew`. -/
def upsertArticle (st : Store) (sid : Nat) (url : String) (content : String) :
    Store × Article × Bool :=
  match st.articles.find? (matchKey sid url) with
  | some a =>
    let a' : Article := { a with content := content }
    ({ st with
        articles := st.articles.map fun b =>
          if matchKey sid url b then { b with content := content } else b },
      a', false)
  | none =>
    let a : Article := ⟨st.nextId, sid, url, content⟩
    ({ articles := st.articles ++ [a], nextId := st.nextId + 1 }, a, true)

/-- One upsert request as issued by an orchestrator worker. -/
structure UpsertOp where
  source_id : Nat
  canonical_url : String
  content : String
deriving DecidableEq, Repr

/-- A serialized interleaving of concurrent upserts: each upsert is atomic
at the store, so any concurrent execution is some sequence of ops. -/
def applyOps (st : Store) (ops : List UpsertOp) : Store :=
  match ops with
  | [] => st
  | op :: rest =>
    applyOps (upsertArticle st op.source_id op.canonical_url op.content).1 rest

/-- The `wasNew` log of a serialized interleaving: each op paired with
whether its upsert created a row. -/
def applyOpsLog (st : Store) (ops : List UpsertOp) : List (UpsertOp × Bool) :=
  match ops with
  | [] => []
  | op :: rest =>
    let r := upsertArticle st op.source_id op.canonical_url op.content
    (op, r.2.2) :: applyOpsLog r.1 rest

/-- Number of creations (`wasNew` = true) recorded for a dedup key. -/
def creationsFor (sid : Nat) (url : String) (log : List (UpsertOp × Bool)) : Nat :=
  (log.filter fun e =>
    e.1.source_id == sid && e.1.canonical_url == url && e.2).length

/-- The store-wide dedup invariant: at most one Article per
(source id, canonical URL) pair. -/
def dedupInv (st : Store) : Prop :=
  ∀ sid url, countKey st.articles sid url ≤ 1

/-- Modelled from the spec: the Fetcher's typed failures. -/
inductive FetchError where
  | networkError
  | timeoutError
  | parseError
deriving DecidableEq, Repr

/-- Modelled from the spec: one fetch attempt's outcome — an ordered
sequence of raw records or a typed failure. -/
inductive FetchOutcome (α : Type) where
  | success (records : List α)
  | failure (e : FetchError)

/-- Modelled from the spec: only `NetworkError` and `Timeout` are
transient; `ParseError` is a content problem and is not retried. -/
def retryable : FetchError → Bool
  | .networkError => true
  | .timeoutError => true
  | .parseError => false

/-- Terminal last-fetch status recorded on the source. -/
inductive FetchStatus where
  | succeeded
  | failed
deriving DecidableEq, Repr

/-- Outcome of orchestrating one fetch request: the recorded status, the
records handed to persistence (empty on failure — no Article is mutated),
the number of Fetcher attempts made, and the backoff delays waited. -/
structure FetchRun (α : Type) where
  status : FetchStatus
  records : List α
  attempts : Nat
  delays : List Nat

/-- Modelled from the spec: the Scrape Orchestrator's retry loop for one
request.  `outcomes k` is what the Fetcher returns on its k-th attempt,
`base` the base backoff delay, the first argument the retries left, the
last the current attempt index.  Retryable failures wait `base * 2 ^ k`
and retry; `ParseError` and exhausted budgets record `failed`. -/
def orchestrateFetch {α : Type} (outcomes : Nat → FetchOutcome α) (base : Nat) :
    Nat → Nat → FetchRun α
  | 0, k =>
    match outcomes k with
    | .success recs => ⟨.succeeded, recs, 1, []⟩
    | .failure _ => ⟨.failed, [], 1, []⟩
  | r + 1, k =>
    match outcomes k with
    | .success recs => ⟨.succeeded, recs, 1, []⟩
    | .failure e =>
      if retryable e then
        let rest := orchestrateFetch outcomes base r (k + 1)
        ⟨rest.status, rest.records, rest.attempts + 1, base * 2 ^ k :: rest.delays⟩
      else ⟨.failed, [], 1, []⟩

/-- Modelled from the spec: process one fetch request with retry budget
`n` (retry up to `n` times, hence at most `n + 1` attempts). -/
def orchestrate {α : Type} (n base : Nat) (outcomes : Nat → FetchOutcome α) :
    FetchRun α :=
  orchestrateFetch outcomes base n 0

/-- Modelled from the spec: the orchestrator handles each source's request
independently (failure isolation): processing a batch maps `orchestrate`
over the per-source outcome streams. -/
def orchestrateAll {α : Type} (n base : Nat)
    (srcs : List (Nat × (Nat → FetchOutcome α))) : List (Nat × FetchRun α) :=
  srcs.map fun p => (p.1, orchestrate n base p.2)

/-- Modelled from the spec: an AnalysisJob's state. -/
inductive JobState where
  | queued
  | running
  | succeeded
  | failed
deriving DecidableEq, Repr

/-- Modelled from the spec: an AnalysisJob — article id, state, attempt
count. -/
structure AnalysisJob where
  article_id : Nat
  state : JobState
  attempts : Nat
deriving DecidableEq, Repr

/-- Whether the queue already holds a `queued` or `running` job for the
article. -/
def activeFor (q : List AnalysisJob) (aid : Nat) : Bool :=
  q.any fun j =>
    j.article_id == aid && (j.state == .queued || j.state == .running)

/-- Modelled from the spec: idempotent enqueue onto the Analysis Queue —
enqueuing an article already `queued` or `running` is a no-op, otherwise a
fresh `queued` job is appended. -/
def enqueue (q : List AnalysisJob) (aid : Nat) : List AnalysisJob :=
  if activeFor q aid then q else q ++ [⟨aid, .queued, 0⟩]

/-- Modelled from the spec: the per-job transitions of the Analysis Queue
with retry ceiling `ceiling` — a worker marks the job running; success is
terminal; failure increments the attempt count and requeues below the
ceiling or marks terminal `failed` once it is hit; a manual re-trigger of
a terminal job re-enqueues with a fresh attempt budget. -/
inductive JobStep (ceiling : Nat) : AnalysisJob → AnalysisJob → Prop where
  | start (aid a : Nat) :
      JobStep ceiling ⟨aid, .queued, a⟩ ⟨aid, .running, a⟩
  | succeed (aid a : Nat) :
      JobStep ceiling ⟨aid, .running, a⟩ ⟨aid, .succeeded, a⟩
  | failRetry (aid a : Nat) (h : a + 1 < ceiling) :
      JobStep ceiling ⟨aid, .running, a⟩ ⟨aid, .queued, a + 1⟩
  | failFinal (aid a : Nat) (h : ceiling ≤ a + 1) :
      JobStep ceiling ⟨aid, .running, a⟩ ⟨aid, .failed, a + 1⟩
  | retriggerFailed (aid a : Nat) :
      JobStep ceiling ⟨aid, .failed, a⟩ ⟨aid, .queued, 0⟩
  | retriggerDone (aid a : Nat) :
      JobStep ceiling ⟨aid, .succeeded, a⟩ ⟨aid, .queued, 0⟩

/-- Jobs reachable from a fresh enqueue (`queued`, zero attempts). -/
inductive JobReachable (ceiling : Nat) : AnalysisJob → Prop where
  | init (aid : Nat) : JobReachable ceiling ⟨aid, .queued, 0⟩
  | step {j j' : AnalysisJob} :
      JobReachable ceiling j → JobStep ceiling j j' → JobReachable ceiling j'

/-- Modelled from the spec: a Source Registry row with the fields
`upsert` validates. -/
structure RegSource where
  id : Nat
  name : String
  base_url : String
  interval : Nat
  active : Bool
deriving DecidableEq, Repr

/-- Modelled from the spec: "URL well-formed" — an absolute http(s) URL
with a nonempty remainder after the scheme. -/
def urlWellFormed (u : String) : Bool :=
  (u.startsWith "http://" && u.length > 7) ||
    (u.startsWith "https://" && u.length > 8)

/-- Modelled from the spec: `upsert` validation — interval at least the
configured minimum and a well-formed URL. -/
def validSource (minInterval : Nat) (s : RegSource) : Bool :=
  decide (minInterval ≤ s.interval) && urlWellFormed s.base_url

/-- Modelled from the spec: `upsert(Source) → Source` on the Source
Registry — an invalid source fails validation and leaves the registry
untouched; a valid one is stored (update by id, else insert) and the
stored source is returned. -/
def upsertSource (minInterval : Nat) (reg : List RegSource) (s : RegSource) :
    List RegSource × Except String RegSource :=
  if validSource minInterval s then
    if reg.any (fun r => r.id == s.id) then
      (reg.map fun r => if r.id == s.id then s else r, .ok s)
    else
      (reg ++ [s], .ok s)
  else
    (reg, .error "invalid source")

/-! ## Lemmas about the `seen` map -/

theorem seenSet_mem (seen : List (String × Source)) (k : String) (v : Source)
    (p : String × Source) (hp : p ∈ seenSet seen k v) : p = (k, v) ∨ p ∈ seen := by
  induction seen with
  | nil =>
    simp only [seenSet, List.mem_singleton] at hp
    exact Or.inl hp
  | cons q rest ih =>
    obtain ⟨k', v'⟩ := q
    simp only [seenSet] at hp
    split at hp
    · rename_i hk
      rcases List.mem_cons.mp hp with h | h
      · subst hk
        exact Or.inl (by rw [h])
      · exact Or.inr (List.mem_cons_of_mem _ h)
    · rcases List.mem_cons.mp hp with h | h
      · exact Or.inr (h ▸ List.mem_cons_self _ _)
      · rcases ih h with h' | h'
        · exact Or.inl h'
        · exact Or.inr (List.mem_cons_of_mem _ h')

theorem seenSet_wf (seen : List (String × Source)) (v : Source)
    (hwf : seenWF seen) : seenWF (seenSet seen (dupKey v) v) := by
  induction seen with
  | nil =>
    constructor
    · intro p hp
      simp only [seenSet, List.mem_singleton] at hp
      rw [hp]
    · simp [seenSet]
  | cons q rest ih =>
    obtain ⟨k', v'⟩ := q
    obtain ⟨hkeys, hpw⟩ := hwf
    rw [List.pairwise_cons] at hpw
    simp only [seenSet]
    split
    · rename_i hk
      constructor
      · intro p hp
        rcases List.mem_cons.mp hp with h | h
        · rw [h]; exact hk
        · exact hkeys p (List.mem_cons_of_mem _ h)
      · rw [List.pairwise_cons]
        exact hpw
    · rename_i hk
      have ihwf : seenWF (seenSet rest (dupKey v) v) := by
        refine ih ⟨?_, hpw.2⟩
        intro p hp
        exact hkeys p (List.mem_cons_of_mem _ hp)
      constructor
      · intro p hp
        rcases List.mem_cons.mp hp with h | h
        · rw [h]
          exact hkeys (k', v') (List.mem_cons_self _ _)
        · exact ihwf.1 p h
      · rw [List.pairwise_cons]
        refine ⟨?_, ihwf.2⟩
        intro p hp
        rcases seenSet_mem rest (dupKey v) v p hp with h | h
        · rw [h]; exact hk
        · exact hpw.1 p h

theorem dedupStep_wf (acc : List (String × Source) × List Source) (s : Source)
    (hwf : seenWF acc.1) : seenWF (dedupStep acc s).1 := by
  simp only [dedupStep]
  cases h : seenLookup acc.1 (dupKey s) with
  | none =>
    exact seenSet_wf acc.1 s hwf
  | some existing =>
    by_cases hn : isNewer s existing = true
    · simp only [hn, if_true]
      exact seenSet_wf acc.1 s hwf
    · simp only [hn, if_false]
      exact hwf

theorem dedupFold_wf (l : List Source) :
    ∀ acc : List (String × Source) × List Source,
      seenWF acc.1 → seenWF (l.foldl dedupStep acc).1 := by
  induction l with
  | nil => intro acc h; exact h
  | cons s rest ih =>
    intro acc h
    exact ih (dedupStep acc s) (dedupStep_wf acc s h)

/-- C1: For every list of sources passed to `removeDuplicates` (invoked
by `fetchSources` on every load of the sources page), the returned list
contains at most one source per (name, url) key: no two elements of the
result have both the same name and the same url. -/
theorem C1_removeDuplicates_unique (l : List Source) :
    ((removeDuplicates l).1).Pairwise
      fun a b => ¬(a.name = b.name ∧ a.url = b.url) := by
  have hwf : seenWF (dedupState l).1 :=
    dedupFold_wf l ([], []) ⟨by simp, by simp⟩
  obtain ⟨hkeys, hpw⟩ := hwf
  simp only [removeDuplicates, List.pairwise_map]
  refine hpw.imp_of_mem ?_
  intro p q hp hq hne
  intro ⟨hname, hurl⟩
  apply hne
  rw [hkeys p hp, hkeys q hq]
  unfold dupKey
  rw [hname, hurl]

/-! ## Lemmas for the partition property of `removeDuplicates` -/

theorem seenLookup_none_set (seen : List (String × Source)) (k : String)
    (v : Source) (h : seenLookup seen k = none) :
    seenSet seen k v = seen ++ [(k, v)] := by
  induction seen with
  | nil => simp [seenSet]
  | cons q rest ih =>
    obtain ⟨k', v'⟩ := q
    simp only [seenLookup] at h
    by_cases hk : k' = k
    · rw [if_pos hk] at h
      exact absurd h (by simp)
    · rw [if_neg hk] at h
      simp only [seenSet, if_neg hk, List.cons_append]
      rw [ih h]

theorem seenSet_values_multiset (seen : List (String × Source)) (k : String)
    (v existing : Source) (h : seenLookup seen k = some existing) :
    (((seenSet seen k v).map Prod.snd : List Source) : Multiset Source)
      + {existing}
      = ((seen.map Prod.snd : List Source) : Multiset Source) + {v} := by
  induction seen with
  | nil => simp [seenLookup] at h
  | cons q rest ih =>
    obtain ⟨k', v'⟩ := q
    simp only [seenLookup] at h
    by_cases hk : k' = k
    · rw [if_pos hk] at h
      have hv : v' = existing := by injection h
      subst hv
      simp only [seenSet, if_pos hk, List.map_cons, ← Multiset.cons_coe]
      simp [add_comm, add_left_comm, add_assoc, Multiset.singleton_add]
      exact List.Perm.swap _ _ _
    · rw [if_neg hk] at h
      simp only [seenSet, if_neg hk, List.map_cons, ← Multiset.cons_coe]
      rw [Multiset.cons_add, Multiset.cons_add, ih h]

theorem dedupStep_multiset (acc : List (String × Source) × List Source)
    (s : Source) :
    (((dedupStep acc s).1.map Prod.snd : List Source) : Multiset Source)
        + ((dedupStep acc s).2 : Multiset Source)
      = ((acc.1.map Prod.snd : List Source) : Multiset Source)
        + (acc.2 : Multiset Source) + {s} := by
  simp only [dedupStep]
  cases h : seenLookup acc.1 (dupKey s) with
  | none =>
    rw [seenLookup_none_set acc.1 (dupKey s) s h]
    simp only [List.map_append, List.map_cons, List.map_nil]
    rw [← Multiset.coe_add]
    simp [add_comm, add_left_comm, add_assoc, Multiset.singleton_add,
      Multiset.cons_coe]
  | some existing =>
    by_cases hn : isNewer s existing = true
    · simp only [hn, if_true]
      rw [← Multiset.coe_add]
      have := seenSet_values_multiset acc.1 (dupKey s) s existing h
      calc (((seenSet acc.1 (dupKey s) s).map Prod.snd : List Source) : Multiset Source)
            + ((acc.2 ++ [existing] : List Source) : Multiset Source)
          = (((seenSet acc.1 (dupKey s) s).map Prod.snd : List Source) : Multiset Source)
            + {existing} + ((acc.2 : List Source) : Multiset Source) := by
            rw [← Multiset.coe_add]
            simp [add_comm, add_left_comm, add_assoc, Multiset.singleton_add,
              Multiset.cons_coe]
        _ = ((acc.1.map Prod.snd : List Source) : Multiset Source) + {s}
            + ((acc.2 : List Source) : Multiset Source) := by rw [this]
        _ = ((acc.1.map Prod.snd : List Source) : Multiset Source)
            + ((acc.2 : List Source) : Multiset Source) + {s} := by
            simp [add_comm, add_left_comm, add_assoc]
    · simp only [hn, Bool.false_eq_true, if_false]
      rw [← Multiset.coe_add]
      simp [add_comm, add_left_comm, add_assoc, Multiset.singleton_add,
        Multiset.cons_coe]

theorem dedupFold_multiset (l : List Source) :
    ∀ acc : List (String × Source) × List Source,
      (((l.foldl dedupStep acc).1.map Prod.snd : List Source) : Multiset Source)
          + ((l.foldl dedupStep acc).2 : Multiset Source)
        = ((acc.1.map Prod.snd : List Source) : Multiset Source)
          + (acc.2 : Multiset Source) + (l : Multiset Source) := by
  induction l with
  | nil => intro acc; simp
  | cons s rest ih =>
    intro acc
    simp only [List.foldl_cons]
    rw [ih (dedupStep acc s), dedupStep_multiset acc s, ← Multiset.cons_coe]
    simp [add_comm, add_left_comm, add_assoc, Multiset.singleton_add]

/-- C2: `removeDuplicates` partitions its input: each input source either
appears in the returned list or is classified a duplicate (its id pushed
exactly once, as one occurrence of the `duplicates` array), never both;
and fetching the source list issues one backend DELETE per classified
duplicate. -/
theorem C2_removeDuplicates_partition (l : List Source) :
    ((removeDuplicates l).1 ++ (dedupState l).2).Perm l
    ∧ (removeDuplicates l).2 = ((dedupState l).2).map Source.id
    ∧ fetchSourcesDeletes l
        = ((dedupState l).2).map fun s => deleteSourceRequest s.id := by
  refine ⟨?_, rfl, ?_⟩
  · rw [← Multiset.coe_eq_coe, ← Multiset.coe_add]
    have h := dedupFold_multiset l ([], [])
    simpa [removeDuplicates, dedupState] using h
  · simp [fetchSourcesDeletes, removeDuplicates, List.map_map]

/-- C3 counterexample: the trigger payload does not carry the source id —
two sources differing only in id produce identical payloads from the
sources page, and the settings page's payload is even independent of the
source entirely, so the scrape trigger cannot be identifying the source
by its id. -/
theorem C3_trigger_id_counterexample :
    sourcesPageTriggerPayload ⟨7, "KrebsOnSecurity", "https://k.example", 0⟩
      = sourcesPageTriggerPayload ⟨8, "KrebsOnSecurity", "https://k.example", 0⟩
    ∧ settingsPageTriggerPayload ⟨7, "KrebsOnSecurity", "https://k.example", 0⟩
      = settingsPageTriggerPayload ⟨9, "Other", "https://o.example", 0⟩
    ∧ (7 : Int) ≠ 8 := by
  refine ⟨rfl, rfl, by decide⟩

/-- C3 (amended): the scrape trigger identifies the source by its *name*,
not its id: the sources page sends `source_name = source.name` with
`job_type = "manual"`, and the settings page — which passes only
`source_id`, a field the api client drops — sends a payload with no
source identifier at all; the call remains non-blocking, returning an
acknowledgement immediately while the scrape itself only becomes a
pending job for the asynchronous workers (no fetch work is performed by
the trigger). -/
theorem C3_trigger_passes_name (s : Source) (st : TriggerCoreState)
    (h : s.name ≠ "") :
    sourcesPageTriggerPayload s
      = { source_name := some s.name, job_type := "manual" }
    ∧ settingsPageTriggerPayload s
      = { source_name := none, job_type := "manual" }
    ∧ (triggerScrapeCore st (sourcesPageTriggerPayload s)).2 = "accepted"
    ∧ (triggerScrapeCore st (sourcesPageTriggerPayload s)).1.fetchesDone
        = st.fetchesDone
    ∧ (triggerScrapeCore st (sourcesPageTriggerPayload s)).1.pendingJobs
        = st.pendingJobs ++ [sourcesPageTriggerPayload s] := by
  refine ⟨?_, rfl, rfl, rfl, rfl⟩
  simp [sourcesPageTriggerPayload, buildTriggerPayload, jsOrString,
    jsTruthy, h]

/-- Witness for `C3_trigger_passes_name` at a concrete source and an
empty trigger-core state. -/
theorem C3_trigger_passes_name_witness :
    sourcesPageTriggerPayload ⟨7, "KrebsOnSecurity", "https://k.example", 0⟩
      = { source_name := some "KrebsOnSecurity", job_type := "manual" }
    ∧ settingsPageTriggerPayload ⟨7, "KrebsOnSecurity", "https://k.example", 0⟩
      = { source_name := none, job_type := "manual" }
    ∧ (triggerScrapeCore ⟨[], 0⟩ (sourcesPageTriggerPayload
        ⟨7, "KrebsOnSecurity", "https://k.example", 0⟩)).2 = "accepted"
    ∧ (triggerScrapeCore ⟨[], 0⟩ (sourcesPageTriggerPayload
          ⟨7, "KrebsOnSecurity", "https://k.example", 0⟩)).1.fetchesDone
        = (⟨[], 0⟩ : TriggerCoreState).fetchesDone
    ∧ (triggerScrapeCore ⟨[], 0⟩ (sourcesPageTriggerPayload
          ⟨7, "KrebsOnSecurity", "https://k.example", 0⟩)).1.pendingJobs
        = (⟨[], 0⟩ : TriggerCoreState).pendingJobs
          ++ [sourcesPageTriggerPayload
                ⟨7, "KrebsOnSecurity", "https://k.example", 0⟩] :=
  C3_trigger_passes_name ⟨7, "KrebsOnSecurity", "https://k.example", 0⟩
    ⟨[], 0⟩ (by decide)

/-- C9 counterexample: an ok (status 200) response whose body fails to
parse as JSON makes `request` throw, although the fetch did not reject
and the status was ok — refuting "throws exactly when the underlying
fetch rejects or the response status is not ok". -/
theorem C9_request_counterexample :
    (request (fun _ => some (⟨true, 200, none⟩ : HttpResponse Nat))).1
      = Except.error RequestError.jsonParseError
    ∧ (⟨true, 200, none⟩ : HttpResponse Nat).ok = true
    ∧ some (⟨true, 200, none⟩ : HttpResponse Nat) ≠ none := by
  refine ⟨rfl, rfl, by simp⟩

/-- C9 (amended): `ApiClient.request` performs exactly one HTTP request
per call with no client-side retry (its result depends only on the first
fetch outcome), and either returns the body parsed as JSON or throws; it
throws exactly when the fetch rejects, the status is not ok, or the ok
response's body fails to parse as JSON. -/
theorem C9_request_behaviour {α : Type}
    (f g : Nat → Option (HttpResponse α)) (hg : g 0 = f 0) :
    (request f).2 = 1
    ∧ request g = request f
    ∧ ((∃ e, (request f).1 = Except.error e) ↔
        f 0 = none
        ∨ ∃ resp, f 0 = some resp
            ∧ (resp.ok = false ∨ resp.jsonBody = none)) := by
  refine ⟨rfl, by simp [request, hg], ?_⟩
  cases hf : f 0 with
  | none => simp [request, requestOnce, hf]
  | some resp =>
    cases hok : resp.ok with
    | false => simp [request, requestOnce, hf, hok]
    | true =>
      cases hb : resp.jsonBody with
      | none => simp [request, requestOnce, hf, hok, hb]
      | some v => simp [request, requestOnce, hf, hok, hb]

/-- Witness for `C9_request_behaviour` at a concrete fetch behaviour
(`g` differs from `f` everywhere but index 0). -/
theorem C9_request_behaviour_witness :
    (request (fun _ => some (⟨true, 200, some 5⟩ : HttpResponse Nat))).2 = 1
    ∧ request (fun n =>
          if n = 0 then some (⟨true, 200, some 5⟩ : HttpResponse Nat)
          else none)
        = request (fun _ => some (⟨true, 200, some 5⟩ : HttpResponse Nat))
    ∧ ((∃ e, (request (fun _ =>
          some (⟨true, 200, some 5⟩ : HttpResponse Nat))).1
            = Except.error e) ↔
        (fun _ => some (⟨true, 200, some 5⟩ : HttpResponse Nat)) 0 = none
        ∨ ∃ resp,
            (fun _ => some (⟨true, 200, some 5⟩ : HttpResponse Nat)) 0
              = some resp
            ∧ (resp.ok = false ∨ resp.jsonBody = none)) :=
  C9_request_behaviour
    (fun _ => some (⟨true, 200, some 5⟩ : HttpResponse Nat))
    (fun n =>
      if n = 0 then some (⟨true, 200, some 5⟩ : HttpResponse Nat) else none)
    rfl

/-- C10 counterexample: at 0 seconds the sources-page copy of
`formatFrequency` returns "Auto" while the settings-page copy returns
"0s", so the two helpers are not equal on every input. -/
theorem C10_formatFrequency_counterexample :
    formatFrequencySources 0 = "Auto"
    ∧ formatFrequencySettings 0 = "0s"
    ∧ formatFrequencySources 0 ≠ formatFrequencySettings 0 := by
  refine ⟨rfl, rfl, by decide⟩

/-- C10 (amended): the two copies of `formatFrequency` return the same
string for every nonzero seconds value; they differ exactly on the falsy
input 0 (where the sources page answers "Auto" and the settings page
"0s"). -/
theorem C10_formatFrequency_agree (s : Nat) (h : s ≠ 0) :
    formatFrequencySources s = formatFrequencySettings s := by
  unfold formatFrequencySources formatFrequencySettings
  rw [if_neg h]

/-- Witness for `C10_formatFrequency_agree` at 90 seconds. -/
theorem C10_formatFrequency_agree_witness :
    formatFrequencySources 90 = formatFrequencySettings 90 :=
  C10_formatFrequency_agree 90 (by decide)

/-! ## Lemmas about the article store upsert -/

theorem countKey_zero_iff (arts : List Article) (sid : Nat) (url : String) :
    countKey arts sid url = 0
      ↔ arts.find? (matchKey sid url) = none := by
  rw [List.find?_eq_none]
  simp [countKey, List.length_eq_zero, List.filter_eq_nil_iff]

theorem countKey_append (arts : List Article) (a : Article) (sid : Nat)
    (url : String) :
    countKey (arts ++ [a]) sid url
      = countKey arts sid url + (if matchKey sid url a then 1 else 0) := by
  by_cases h : matchKey sid url a = true <;>
    simp [countKey, List.filter_append, h]

theorem matchKey_upd (sid : Nat) (url c : String) (s' : Nat) (u' : String)
    (b : Article) :
    matchKey s' u' (if matchKey sid url b then { b with content := c } else b)
      = matchKey s' u' b := by
  by_cases h : matchKey sid url b = true
  · rw [if_pos h]
    rfl
  · rw [if_neg h]

theorem countKey_map_upd (arts : List Article) (sid : Nat) (url c : String)
    (s' : Nat) (u' : String) :
    countKey (arts.map fun b =>
        if matchKey sid url b then { b with content := c } else b) s' u'
      = countKey arts s' u' := by
  induction arts with
  | nil => rfl
  | cons a rest ih =>
    simp only [countKey, List.map_cons, List.filter_cons, matchKey_upd] at *
    by_cases h : matchKey s' u' a = true
    · simp [h, ih]
    · simp [h, ih]

theorem upsert_countKey (st : Store) (sid : Nat) (url c : String)
    (s' : Nat) (u' : String) :
    countKey (upsertArticle st sid url c).1.articles s' u'
      = if s' = sid ∧ u' = url then
          (if countKey st.articles sid url = 0 then 1
           else countKey st.articles sid url)
        else countKey st.articles s' u' := by
  cases hf : st.articles.find? (matchKey sid url) with
  | some a =>
    have hnz : ¬ countKey st.articles sid url = 0 := by
      intro h0
      rw [countKey_zero_iff] at h0
      rw [h0] at hf
      exact Option.noConfusion hf
    simp only [upsertArticle, hf]
    rw [countKey_map_upd]
    by_cases hk : s' = sid ∧ u' = url
    · rw [if_pos hk, if_neg hnz, hk.1, hk.2]
    · rw [if_neg hk]
  | none =>
    have hz : countKey st.articles sid url = 0 :=
      (countKey_zero_iff _ _ _).mpr hf
    simp only [upsertArticle, hf]
    rw [countKey_append]
    by_cases hk : s' = sid ∧ u' = url
    · rw [if_pos hk, if_pos hz, hk.1, hk.2, hz]
      simp [matchKey]
    · rw [if_neg hk]
      have hm : matchKey s' u' (⟨st.nextId, sid, url, c⟩ : Article) = false := by
        rcases not_and_or.mp hk with hs | hu
        · simp [matchKey, beq_iff_eq]
          intro h
          exact absurd h.symm hs
        · simp [matchKey, beq_iff_eq]
          intro _ h
          exact absurd h.symm hu
      simp [hm]

theorem upsert_inv (st : Store) (sid : Nat) (url c : String)
    (hinv : dedupInv st) : dedupInv (upsertArticle st sid url c).1 := by
  intro s' u'
  rw [upsert_countKey]
  by_cases hk : s' = sid ∧ u' = url
  · rw [if_pos hk]
    by_cases h0 : countKey st.articles sid url = 0
    · rw [if_pos h0]
    · rw [if_neg h0]
      exact hinv sid url
  · rw [if_neg hk]
    exact hinv s' u'

theorem upsert_countKey_mono (st : Store) (sid : Nat) (url c : String)
    (s' : Nat) (u' : String) :
    countKey st.articles s' u'
      ≤ countKey (upsertArticle st sid url c).1.articles s' u' := by
  rw [upsert_countKey]
  by_cases hk : s' = sid ∧ u' = url
  · rw [if_pos hk]
    obtain ⟨rfl, rfl⟩ := hk
    by_cases h0 : countKey st.articles s' u' = 0
    · rw [if_pos h0]
      omega
    · rw [if_neg h0]
  · rw [if_neg hk]

theorem upsert_countKey_pos (st : Store) (sid : Nat) (url c : String) :
    1 ≤ countKey (upsertArticle st sid url c).1.articles sid url := by
  rw [upsert_countKey, if_pos ⟨rfl, rfl⟩]
  by_cases h0 : countKey st.articles sid url = 0
  · rw [if_pos h0]
  · rw [if_neg h0]
    omega

theorem upsert_wasNew (st : Store) (sid : Nat) (url c : String) :
    (upsertArticle st sid url c).2.2
      = decide (countKey st.articles sid url = 0) := by
  cases hf : st.articles.find? (matchKey sid url) with
  | some a =>
    have hnz : ¬ countKey st.articles sid url = 0 := by
      intro h0
      rw [countKey_zero_iff] at h0
      rw [h0] at hf
      exact Option.noConfusion hf
    simp [upsertArticle, hf, hnz]
  | none =>
    have hz : countKey st.articles sid url = 0 :=
      (countKey_zero_iff _ _ _).mpr hf
    simp [upsertArticle, hf, hz]

theorem applyOps_inv (ops : List UpsertOp) :
    ∀ st : Store, dedupInv st → dedupInv (applyOps st ops) := by
  induction ops with
  | nil => intro st h; exact h
  | cons op rest ih =>
    intro st h
    simp only [applyOps]
    exact ih _ (upsert_inv st op.source_id op.canonical_url op.content h)

theorem applyOps_countKey_mono (ops : List UpsertOp) :
    ∀ (st : Store) (s' : Nat) (u' : String),
      countKey st.articles s' u'
        ≤ countKey (applyOps st ops).articles s' u' := by
  induction ops with
  | nil => intro st s' u'; exact le_rfl
  | cons op rest ih =>
    intro st s' u'
    simp only [applyOps]
    exact le_trans
      (upsert_countKey_mono st op.source_id op.canonical_url op.content s' u')
      (ih _ s' u')

theorem applyOps_touched (ops : List UpsertOp) :
    ∀ st : Store, ∀ op ∈ ops,
      1 ≤ countKey (applyOps st ops).articles op.source_id op.canonical_url := by
  induction ops with
  | nil => intro st op h; cases h
  | cons op0 rest ih =>
    intro st op hop
    simp only [applyOps]
    rcases List.mem_cons.mp hop with h | h
    · subst h
      exact le_trans
        (upsert_countKey_pos st op.source_id op.canonical_url op.content)
        (applyOps_countKey_mono rest _ op.source_id op.canonical_url)
    · exact ih _ op h

theorem creationsFor_cons (sid : Nat) (url : String) (e : UpsertOp × Bool)
    (log : List (UpsertOp × Bool)) :
    creationsFor sid url (e :: log)
      = creationsFor sid url log
        + (if e.1.source_id = sid ∧ e.1.canonical_url = url ∧ e.2 = true
           then 1 else 0) := by
  simp only [creationsFor, List.filter_cons]
  by_cases h : (e.1.source_id == sid && e.1.canonical_url == url && e.2) = true
  · rw [if_pos h, List.length_cons]
    have hp : e.1.source_id = sid ∧ e.1.canonical_url = url ∧ e.2 = true := by
      simp only [Bool.and_eq_true, beq_iff_eq] at h
      exact ⟨h.1.1, h.1.2, h.2⟩
    rw [if_pos hp]
  · rw [if_neg h]
    have hp : ¬(e.1.source_id = sid ∧ e.1.canonical_url = url ∧ e.2 = true) := by
      intro hc
      exact h (by simp [hc.1, hc.2.1, hc.2.2])
    rw [if_neg hp]
    omega

theorem applyOps_creations (ops : List UpsertOp) :
    ∀ (st : Store) (sid : Nat) (url : String),
      countKey (applyOps st ops).articles sid url
        = countKey st.articles sid url
          + creationsFor sid url (applyOpsLog st ops) := by
  induction ops with
  | nil => intro st sid url; simp [applyOps, applyOpsLog, creationsFor]
  | cons op rest ih =>
    intro st sid url
    simp only [applyOps, applyOpsLog]
    rw [ih, creationsFor_cons, upsert_countKey, upsert_wasNew]
    by_cases hs : op.source_id = sid
    · by_cases hu : op.canonical_url = url
      · rw [if_pos ⟨hs.symm, hu.symm⟩]
        by_cases h0 : countKey st.articles op.source_id op.canonical_url = 0
        · rw [if_pos h0, if_pos ⟨hs, hu, by simp [h0]⟩]
          have h0' : countKey st.articles sid url = 0 := by
            rw [← hs, ← hu]; exact h0
          omega
        · rw [if_neg h0,
            if_neg (fun hc => absurd (of_decide_eq_true hc.2.2) h0)]
          rw [hs, hu]
          omega
      · rw [if_neg (fun hk => hu hk.2.symm),
          if_neg (fun hc => hu hc.2.1)]
        omega
    · rw [if_neg (fun hk => hs hk.1.symm),
        if_neg (fun hc => hs hc.1)]
      omega

/-- C4 (spec-modelled): in every state reachable by a serialized
interleaving of concurrent upserts from a store satisfying the dedup
invariant, at most one Article exists per (source id, canonical URL)
pair; every upserted key ends with exactly one Article; and for a key not
previously present that at least one concurrent upsert touches, exactly
one of the interleaved upserts creates an Article (all others update). -/
theorem C4_canonical_url_unique (st : Store) (ops : List UpsertOp)
    (hinv : dedupInv st) :
    dedupInv (applyOps st ops)
    ∧ (∀ op ∈ ops,
        countKey (applyOps st ops).articles op.source_id op.canonical_url = 1)
    ∧ (∀ sid url, countKey st.articles sid url = 0 →
        (∃ op ∈ ops, op.source_id = sid ∧ op.canonical_url = url) →
        creationsFor sid url (applyOpsLog st ops) = 1) := by
  have hinv' := applyOps_inv ops st hinv
  refine ⟨hinv', ?_, ?_⟩
  · intro op hop
    have h1 := applyOps_touched ops st op hop
    have h2 := hinv' op.source_id op.canonical_url
    omega
  · rintro sid url h0 ⟨op, hop, hs, hu⟩
    have hc := applyOps_creations ops st sid url
    have h1 := applyOps_touched ops st op hop
    rw [hs, hu] at h1
    have h2 := hinv' sid url
    omega

/-- Witness for `C4_canonical_url_unique`: two concurrent upserts of the
same canonical URL into an empty store. -/
theorem C4_canonical_url_unique_witness :
    dedupInv (applyOps ⟨[], 0⟩
      [⟨1, "https://a.example/p", "x"⟩, ⟨1, "https://a.example/p", "y"⟩])
    ∧ (∀ op ∈ [(⟨1, "https://a.example/p", "x"⟩ : UpsertOp),
          ⟨1, "https://a.example/p", "y"⟩],
        countKey (applyOps ⟨[], 0⟩
            [⟨1, "https://a.example/p", "x"⟩,
              ⟨1, "https://a.example/p", "y"⟩]).articles
          op.source_id op.canonical_url = 1)
    ∧ (∀ sid url, countKey (⟨[], 0⟩ : Store).articles sid url = 0 →
        (∃ op ∈ [(⟨1, "https://a.example/p", "x"⟩ : UpsertOp),
            ⟨1, "https://a.example/p", "y"⟩],
          op.source_id = sid ∧ op.canonical_url = url) →
        creationsFor sid url (applyOpsLog ⟨[], 0⟩
          [⟨1, "https://a.example/p", "x"⟩,
            ⟨1, "https://a.example/p", "y"⟩]) = 1) :=
  C4_canonical_url_unique ⟨[], 0⟩
    [⟨1, "https://a.example/p", "x"⟩, ⟨1, "https://a.example/p", "y"⟩]
    (fun sid url => by simp [countKey])

/-! ## Lemmas about the orchestrator's retry loop -/

theorem orchestrateFetch_attempts_le {α : Type}
    (outcomes : Nat → FetchOutcome α) (base : Nat) :
    ∀ r k, (orchestrateFetch outcomes base r k).attempts ≤ r + 1 := by
  intro r
  induction r with
  | zero =>
    intro k
    cases h : outcomes k <;> simp [orchestrateFetch, h]
  | succ r ih =>
    intro k
    cases h : outcomes k with
    | success recs => simp [orchestrateFetch, h]
    | failure e =>
      by_cases hr : retryable e = true
      · simp only [orchestrateFetch, h, hr, if_true]
        have := ih (k + 1)
        omega
      · simp [orchestrateFetch, h, hr]

theorem orchestrateFetch_attempts_pos {α : Type}
    (outcomes : Nat → FetchOutcome α) (base : Nat) :
    ∀ r k, 1 ≤ (orchestrateFetch outcomes base r k).attempts := by
  intro r
  induction r with
  | zero =>
    intro k
    cases h : outcomes k <;> simp [orchestrateFetch, h]
  | succ r ih =>
    intro k
    cases h : outcomes k with
    | success recs => simp [orchestrateFetch, h]
    | failure e =>
      by_cases hr : retryable e = true
      · simp only [orchestrateFetch, h, hr, if_true]
        omega
      · simp [orchestrateFetch, h, hr]

theorem orchestrateFetch_all_network_fail {α : Type}
    (outcomes : Nat → FetchOutcome α) (base : Nat) :
    ∀ r k, (∀ j, j ≤ r → outcomes (k + j) = .failure .networkError) →
      (orchestrateFetch outcomes base r k).status = .failed
      ∧ (orchestrateFetch outcomes base r k).records = []
      ∧ (orchestrateFetch outcomes base r k).attempts = r + 1 := by
  intro r
  induction r with
  | zero =>
    intro k h
    have h0 := h 0 (le_refl 0)
    rw [Nat.add_zero] at h0
    simp [orchestrateFetch, h0]
  | succ r ih =>
    intro k h
    have h0 := h 0 (Nat.zero_le _)
    rw [Nat.add_zero] at h0
    have hrest := ih (k + 1) fun j hj => by
      have := h (j + 1) (by omega)
      rw [show k + 1 + j = k + (j + 1) by omega]
      exact this
    simp only [orchestrateFetch, h0, retryable, if_true]
    exact ⟨hrest.1, hrest.2.1, by omega⟩

theorem orchestrateFetch_delays {α : Type}
    (outcomes : Nat → FetchOutcome α) (base : Nat) :
    ∀ r k, (orchestrateFetch outcomes base r k).delays
      = (List.range ((orchestrateFetch outcomes base r k).attempts - 1)).map
          fun i => base * 2 ^ (k + i) := by
  intro r
  induction r with
  | zero =>
    intro k
    cases h : outcomes k <;> simp [orchestrateFetch, h]
  | succ r ih =>
    intro k
    cases h : outcomes k with
    | success recs => simp [orchestrateFetch, h]
    | failure e =>
      by_cases hr : retryable e = true
      · simp only [orchestrateFetch, h, hr, if_true]
        have hpos := orchestrateFetch_attempts_pos outcomes base r (k + 1)
        set m := (orchestrateFetch outcomes base r (k + 1)).attempts with hm
        rw [ih (k + 1)]
        have hm1 : m - 1 + 1 = m := by omega
        have : (orchestrateFetch outcomes base r (k + 1)).attempts + 1 - 1
            = (m - 1) + 1 := by omega
        rw [this, List.range_succ_eq_map, List.map_cons, List.map_map]
        refine congrArg₂ List.cons (by rw [Nat.add_zero]) ?_
        apply List.map_congr_left
        intro i _
        show base * 2 ^ (k + 1 + i) = base * 2 ^ (k + (i + 1))
        rw [show k + 1 + i = k + (i + 1) by omega]
      · simp [orchestrateFetch, h, hr]

theorem orchestrateFetch_parse_noretry {α : Type}
    (outcomes : Nat → FetchOutcome α) (base : Nat) :
    ∀ r k j, j ≤ r →
      (∀ i, i < j → ∃ e, outcomes (k + i) = .failure e ∧ retryable e = true) →
      outcomes (k + j) = .failure .parseError →
      (orchestrateFetch outcomes base r k).status = .failed
      ∧ (orchestrateFetch outcomes base r k).records = []
      ∧ (orchestrateFetch outcomes base r k).attempts = j + 1 := by
  intro r
  induction r with
  | zero =>
    intro k j hj hpre hparse
    have hj0 : j = 0 := by omega
    subst hj0
    rw [Nat.add_zero] at hparse
    simp [orchestrateFetch, hparse]
  | succ r ih =>
    intro k j hj hpre hparse
    cases j with
    | zero =>
      rw [Nat.add_zero] at hparse
      simp [orchestrateFetch, hparse, retryable]
    | succ j' =>
      obtain ⟨e, he, hre⟩ := hpre 0 (by omega)
      rw [Nat.add_zero] at he
      have hrest := ih (k + 1) j' (by omega)
        (fun i hi => by
          have := hpre (i + 1) (by omega)
          rw [show k + 1 + i = k + (i + 1) by omega]
          exact this)
        (by rw [show k + 1 + j' = k + (j' + 1) by omega]; exact hparse)
      simp only [orchestrateFetch, he, hre, if_true]
      exact ⟨hrest.1, hrest.2.1, by rw [hrest.2.2]⟩

/-- C5 (spec-modelled): the Orchestrator retries only transient failures
(`NetworkError`/`Timeout`), at most `n` retries (so at most `n + 1`
attempts), with exponential backoff delays `base * 2 ^ i`; a `ParseError`
is never retried — whether it hits the first attempt or any later attempt
reached through retried transient failures, the run stops right there
with status `failed`; `n + 1` consecutive network failures leave status
`failed` with no Article records to mutate; one failure followed by a
success recovers; and each source's request is processed independently of
its siblings. -/
theorem C5_orchestrator_retry {α : Type} (n base : Nat)
    (outcomes : Nat → FetchOutcome α) :
    (orchestrate n base outcomes).attempts ≤ n + 1
    ∧ (∀ j, j ≤ n →
        (∀ i, i < j → ∃ e, outcomes i = .failure e ∧ retryable e = true) →
        outcomes j = .failure .parseError →
        (orchestrate n base outcomes).status = .failed
        ∧ (orchestrate n base outcomes).records = []
        ∧ (orchestrate n base outcomes).attempts = j + 1)
    ∧ ((∀ k, k ≤ n → outcomes k = .failure .networkError) →
        (orchestrate n base outcomes).status = .failed
        ∧ (orchestrate n base outcomes).records = []
        ∧ (orchestrate n base outcomes).attempts = n + 1)
    ∧ (orchestrate n base outcomes).delays
        = (List.range ((orchestrate n base outcomes).attempts - 1)).map
            (fun i => base * 2 ^ i)
    ∧ (∀ recs : List α, outcomes 0 = .failure .networkError →
        outcomes 1 = .success recs → 1 ≤ n →
        (orchestrate n base outcomes).status = .succeeded
        ∧ (orchestrate n base outcomes).records = recs)
    ∧ (∀ (pre post : List (Nat × (Nat → FetchOutcome α))) (sid : Nat),
        orchestrateAll n base (pre ++ (sid, outcomes) :: post)
          = orchestrateAll n base pre
            ++ (sid, orchestrate n base outcomes) :: orchestrateAll n base post) := by
  refine ⟨orchestrateFetch_attempts_le outcomes base n 0, ?_, ?_, ?_, ?_, ?_⟩
  · intro j hj hpre hparse
    exact orchestrateFetch_parse_noretry outcomes base n 0 j hj
      (fun i hi => by rw [show (0 : Nat) + i = i by omega]; exact hpre i hi)
      (by rw [show (0 : Nat) + j = j by omega]; exact hparse)
  · intro h
    exact orchestrateFetch_all_network_fail outcomes base n 0
      fun j hj => by rw [show (0 : Nat) + j = j by omega]; exact h j hj
  · have := orchestrateFetch_delays outcomes base n 0
    simpa [orchestrate] using this
  · intro recs h0 h1 hn
    obtain ⟨m, rfl⟩ : ∃ m, n = m + 1 := ⟨n - 1, by omega⟩
    cases m with
    | zero =>
      simp [orchestrate, orchestrateFetch, h0, h1, retryable]
    | succ m' =>
      simp [orchestrate, orchestrateFetch, h0, h1, retryable]
  · intro pre post sid
    simp [orchestrateAll]

/-- Witness for `C5_orchestrator_retry` at a concrete outcome stream
(first attempt a network failure, second a success). -/
theorem C5_orchestrator_retry_witness :
    (orchestrate 2 10 (fun k =>
        if k = 0 then .failure .networkError
        else .success [(7 : Nat)])).attempts ≤ 2 + 1
    ∧ (∀ j, j ≤ 2 →
        (∀ i, i < j → ∃ e, (fun k =>
            if k = 0 then (FetchOutcome.failure FetchError.networkError)
            else .success [(7 : Nat)]) i = .failure e
          ∧ retryable e = true) →
        (fun k =>
          if k = 0 then (FetchOutcome.failure FetchError.networkError)
          else .success [(7 : Nat)]) j = .failure .parseError →
        (orchestrate 2 10 (fun k =>
            if k = 0 then .failure .networkError
            else .success [(7 : Nat)])).status = .failed
        ∧ (orchestrate 2 10 (fun k =>
            if k = 0 then .failure .networkError
            else .success [(7 : Nat)])).records = []
        ∧ (orchestrate 2 10 (fun k =>
            if k = 0 then .failure .networkError
            else .success [(7 : Nat)])).attempts = j + 1)
    ∧ ((∀ k, k ≤ 2 → (fun k =>
          if k = 0 then (FetchOutcome.failure FetchError.networkError)
          else .success [(7 : Nat)]) k = .failure .networkError) →
        (orchestrate 2 10 (fun k =>
            if k = 0 then .failure .networkError
            else .success [(7 : Nat)])).status = .failed
        ∧ (orchestrate 2 10 (fun k =>
            if k = 0 then .failure .networkError
            else .success [(7 : Nat)])).records = []
        ∧ (orchestrate 2 10 (fun k =>
            if k = 0 then .failure .networkError
            else .success [(7 : Nat)])).attempts = 2 + 1)
    ∧ (orchestrate 2 10 (fun k =>
          if k = 0 then .failure .networkError
          else .success [(7 : Nat)])).delays
        = (List.range ((orchestrate 2 10 (fun k =>
              if k = 0 then .failure .networkError
              else .success [(7 : Nat)])).attempts - 1)).map
            (fun i => 10 * 2 ^ i)
    ∧ (∀ recs : List Nat, (fun k =>
          if k = 0 then (FetchOutcome.failure FetchError.networkError)
          else .success [(7 : Nat)]) 0 = .failure .networkError →
        (fun k =>
          if k = 0 then (FetchOutcome.failure FetchError.networkError)
          else .success [(7 : Nat)]) 1 = .success recs → 1 ≤ 2 →
        (orchestrate 2 10 (fun k =>
            if k = 0 then .failure .networkError
            else .success [(7 : Nat)])).status = .succeeded
        ∧ (orchestrate 2 10 (fun k =>
            if k = 0 then .failure .networkError
            else .success [(7 : Nat)])).records = recs)
    ∧ (∀ (pre post : List (Nat × (Nat → FetchOutcome Nat))) (sid : Nat),
        orchestrateAll 2 10 (pre ++ (sid, fun k =>
            if k = 0 then .failure .networkError
            else .success [(7 : Nat)]) :: post)
          = orchestrateAll 2 10 pre
            ++ (sid, orchestrate 2 10 (fun k =>
                if k = 0 then .failure .networkError
                else .success [(7 : Nat)])) :: orchestrateAll 2 10 post) :=
  C5_orchestrator_retry 2 10 (fun k =>
    if k = 0 then .failure .networkError else .success [(7 : Nat)])

/-- C6 (spec-modelled): enqueuing an Article already `queued` or `running`
onto the Analysis Queue is a no-op — the queue (hence its length and
contents) is unchanged, and enqueue is idempotent for such articles. -/
theorem C6_enqueue_idempotent (q : List AnalysisJob) (aid : Nat)
    (h : activeFor q aid = true) :
    enqueue q aid = q
    ∧ (enqueue q aid).length = q.length
    ∧ enqueue (enqueue q aid) aid = enqueue q aid := by
  have h1 : enqueue q aid = q := by simp [enqueue, h]
  exact ⟨h1, by rw [h1], by rw [h1]; exact h1⟩

/-- Witness for `C6_enqueue_idempotent`: a queue already holding a
`queued` job for article 5. -/
theorem C6_enqueue_idempotent_witness :
    enqueue [⟨5, .queued, 0⟩] 5 = [⟨5, .queued, 0⟩]
    ∧ (enqueue [⟨5, .queued, 0⟩] 5).length = [(⟨5, .queued, 0⟩ : AnalysisJob)].length
    ∧ enqueue (enqueue [⟨5, .queued, 0⟩] 5) 5 = enqueue [⟨5, .queued, 0⟩] 5 :=
  C6_enqueue_idempotent [⟨5, .queued, 0⟩] 5 (by decide)

theorem jobReachable_inv (ceiling : Nat) (hc : 1 ≤ ceiling) :
    ∀ j : AnalysisJob, JobReachable ceiling j →
      j.attempts ≤ ceiling
      ∧ ((j.state = .queued ∨ j.state = .running) → j.attempts < ceiling) := by
  intro j hr
  induction hr with
  | init aid =>
    refine ⟨?_, fun _ => ?_⟩
    · show (0 : Nat) ≤ ceiling
      omega
    · show (0 : Nat) < ceiling
      omega
  | step hj hs ih =>
    cases hs with
    | start aid a =>
      have h2 : a < ceiling := ih.2 (Or.inl rfl)
      refine ⟨?_, fun _ => ?_⟩
      · show a ≤ ceiling
        omega
      · show a < ceiling
        omega
    | succeed aid a =>
      have h2 : a < ceiling := ih.2 (Or.inr rfl)
      refine ⟨?_, fun hcon => ?_⟩
      · show a ≤ ceiling
        omega
      · rcases hcon with hcon | hcon <;> exact JobState.noConfusion hcon
    | failRetry aid a h =>
      refine ⟨?_, fun _ => ?_⟩
      · show a + 1 ≤ ceiling
        omega
      · show a + 1 < ceiling
        omega
    | failFinal aid a h =>
      have h2 : a < ceiling := ih.2 (Or.inr rfl)
      refine ⟨?_, fun hcon => ?_⟩
      · show a + 1 ≤ ceiling
        omega
      · rcases hcon with hcon | hcon <;> exact JobState.noConfusion hcon
    | retriggerFailed aid a =>
      refine ⟨?_, fun _ => ?_⟩
      · show (0 : Nat) ≤ ceiling
        omega
      · show (0 : Nat) < ceiling
        omega
    | retriggerDone aid a =>
      refine ⟨?_, fun _ => ?_⟩
      · show (0 : Nat) ≤ ceiling
        omega
      · show (0 : Nat) < ceiling
        omega

/-- C7 (spec-modelled): in every reachable state of an AnalysisJob the
attempt count never exceeds the configured retry ceiling, and any failure
whose increment would reach or pass the ceiling cannot requeue — the only
transitions out of `running` at that point are terminal (`succeeded` or
`failed`). -/
theorem C7_attempts_le_ceiling (ceiling : Nat) (j : AnalysisJob)
    (hc : 1 ≤ ceiling) (hr : JobReachable ceiling j) :
    j.attempts ≤ ceiling
    ∧ ((j.state = .queued ∨ j.state = .running) → j.attempts < ceiling)
    ∧ (∀ (aid a : Nat) (j' : AnalysisJob), ceiling ≤ a + 1 →
        JobStep ceiling ⟨aid, .running, a⟩ j' →
        j'.state = .succeeded ∨ j'.state = .failed) := by
  have hinv := jobReachable_inv ceiling hc j hr
  refine ⟨hinv.1, hinv.2, ?_⟩
  intro aid a j' hle hs
  cases hs with
  | succeed => left; rfl
  | failRetry _ _ h => omega
  | failFinal => right; rfl

/-- Witness for `C7_attempts_le_ceiling`: ceiling 3 and the freshly
enqueued job for article 1. -/
theorem C7_attempts_le_ceiling_witness :
    (⟨1, .queued, 0⟩ : AnalysisJob).attempts ≤ 3
    ∧ (((⟨1, .queued, 0⟩ : AnalysisJob).state = .queued
        ∨ (⟨1, .queued, 0⟩ : AnalysisJob).state = .running) →
        (⟨1, .queued, 0⟩ : AnalysisJob).attempts < 3)
    ∧ (∀ (aid a : Nat) (j' : AnalysisJob), 3 ≤ a + 1 →
        JobStep 3 ⟨aid, .running, a⟩ j' →
        j'.state = .succeeded ∨ j'.state = .failed) :=
  C7_attempts_le_ceiling 3 ⟨1, .queued, 0⟩ (by omega) (JobReachable.init 1)

/-- C8 (spec-modelled): `upsert(Source)` validates its argument — a fetch
interval below the configured minimum or a malformed URL makes the upsert
fail with the registry unchanged (nothing created or updated); a valid
source is stored and returned. -/
theorem C8_upsert_validates (minInterval : Nat) (reg : List RegSource)
    (s : RegSource) :
    ((s.interval < minInterval ∨ urlWellFormed s.base_url = false) →
      (upsertSource minInterval reg s).1 = reg
      ∧ (upsertSource minInterval reg s).2 = .error "invalid source")
    ∧ (minInterval ≤ s.interval → urlWellFormed s.base_url = true →
      (upsertSource minInterval reg s).2 = .ok s
      ∧ s ∈ (upsertSource minInterval reg s).1) := by
  constructor
  · intro h
    have hv : validSource minInterval s = false := by
      rcases h with h | h
      · rw [validSource, decide_eq_false (by omega), Bool.false_and]
      · rw [validSource, h, Bool.and_false]
    simp [upsertSource, hv]
  · intro h1 h2
    have hv : validSource minInterval s = true := by
      simp [validSource, h1, h2]
    simp only [upsertSource, hv, if_true]
    by_cases hid : reg.any (fun r => r.id == s.id) = true
    · rw [if_pos hid]
      refine ⟨rfl, ?_⟩
      rcases List.any_eq_true.mp hid with ⟨r, hr, hre⟩
      exact List.mem_map.mpr ⟨r, hr, by rw [if_pos hre]⟩
    · rw [if_neg hid]
      exact ⟨rfl, List.mem_append_right _ (List.mem_singleton_self s)⟩

/-- Witness for `C8_upsert_validates`: registering a valid RSS source
onto an empty registry with a 60-second minimum interval. -/
theorem C8_upsert_validates_witness :
    (((⟨1, "KrebsOnSecurity", "https://krebsonsecurity.com", 3600, true⟩ :
          RegSource).interval < 60
      ∨ urlWellFormed (⟨1, "KrebsOnSecurity",
          "https://krebsonsecurity.com", 3600, true⟩ :
            RegSource).base_url = false) →
      (upsertSource 60 []
        ⟨1, "KrebsOnSecurity", "https://krebsonsecurity.com", 3600, true⟩).1
        = []
      ∧ (upsertSource 60 []
          ⟨1, "KrebsOnSecurity", "https://krebsonsecurity.com", 3600, true⟩).2
          = .error "invalid source")
    ∧ (60 ≤ (⟨1, "KrebsOnSecurity", "https://krebsonsecurity.com", 3600,
          true⟩ : RegSource).interval →
        urlWellFormed (⟨1, "KrebsOnSecurity", "https://krebsonsecurity.com",
          3600, true⟩ : RegSource).base_url = true →
      (upsertSource 60 []
          ⟨1, "KrebsOnSecurity", "https://krebsonsecurity.com", 3600, true⟩).2
          = .ok ⟨1, "KrebsOnSecurity", "https://krebsonsecurity.com", 3600, true⟩
      ∧ (⟨1, "KrebsOnSecurity", "https://krebsonsecurity.com", 3600, true⟩ :
            RegSource)
          ∈ (upsertSource 60 []
              ⟨1, "KrebsOnSecurity", "https://krebsonsecurity.com", 3600,
                true⟩).1) :=
  C8_upsert_validates 60 []
    ⟨1, "KrebsOnSecurity", "https://krebsonsecurity.com", 3600, true⟩
